import Mathlib

/-!
Shallow embedding of the Euprime lead-scoring pipeline
(`src/lead_scoring.py` and `src/graph_app.py`).

Python strings are modelled as Lean `String`s; the case-folding and
substring operations work on `List Char`.  All string data flowing
through the program is ASCII, where Python's `str.lower` agrees with
`Char.toLower` and Python's `\w` (word character) agrees with
`Char.isAlphanum || c = '_'`.  Python `int` is modelled as `Int`.
-/

namespace Euprime

/-- `lowerStr s` models Python `s.lower()` (ASCII case folding), as the
lower-cased character list of `s`. -/
def lowerStr (s : String) : List Char :=
  s.toList.map Char.toLower

/-- `containsSub kw text` models the Python substring test `kw in text`
on character lists: some index `i` starts an occurrence of `kw`. -/
def containsSub (kw text : List Char) : Bool :=
  (List.range (text.length + 1)).any (fun i => (text.drop i).take kw.length == kw)

/-- `inLower kw hay` models Python `kw in hay.lower()` for an
already-lower-case literal `kw`. -/
def inLower (kw : String) (hay : List Char) : Bool :=
  containsSub kw.toList hay

/-- Word characters of Python's regex `\w` restricted to ASCII:
letters, digits and underscore. -/
def isWordChar (c : Char) : Bool :=
  c.isAlphanum || c == '_'

/-- `wordBoundarySearch kw text` models Python
`re.search(r"\b" + re.escape(kw) + r"\b", text) is not None` for a
non-empty literal `kw` whose first and last characters are word
characters (true of every entry of `DILI_KEYWORDS`).  Under that side
condition, regex `\b` at the start of the occurrence holds iff the
occurrence is at position 0 or the preceding character is a non-word
character, and `\b` at the end holds iff the occurrence ends the string
or the following character is a non-word character.  `List.getD` with
the non-word default `' '` covers the end-of-string case. -/
def wordBoundarySearch (kw text : List Char) : Bool :=
  (List.range (text.length + 1)).any (fun i =>
    ((text.drop i).take kw.length == kw)
    && (i == 0 || !isWordChar (text.getD (i - 1) ' '))
    && !isWordChar (text.getD (i + kw.length) ' '))

/-- `HUB_LOCATIONS` from `src/lead_scoring.py`. -/
def HUB_LOCATIONS : List String :=
  ["Boston", "Cambridge", "Massachusetts", "Bay Area", "San Francisco", "San Diego",
   "Basel", "Cambridge UK", "Oxford", "London", "Golden Triangle"]

/-- `DILI_KEYWORDS` from `src/lead_scoring.py`. -/
def DILI_KEYWORDS : List String :=
  ["drug-induced liver injury",
   "DILI",
   "hepatic toxicity",
   "liver toxicity",
   "investigative toxicology",
   "3D cell culture",
   "organ-on-chip",
   "hepatic spheroids",
   "NAMs",
   "new approach methodologies"]

/-- The `Lead` dataclass of `src/lead_scoring.py`. -/
structure Lead where
  name : String
  title : String
  company : String
  person_location : String
  company_hq : String
  email : Option String
  linkedin_url : Option String
  funding_stage : Option String
  uses_similar_tech : Bool
  open_to_nams : Bool
  recent_publications : List String
  is_conference_attendee : Bool
  is_conference_speaker_or_presenter : Bool
deriving DecidableEq

/-- `score_role_fit` of `src/lead_scoring.py`. -/
def score_role_fit (title : String) : Int :=
  let title_lower := lowerStr title
  let score : Int := 0
  let score := if ["director", "head", "vp", "vice president", "chief"].any
      (fun k => inLower k title_lower) then score + 10 else score
  let score := if ["toxicology", "toxicologist"].any
      (fun k => inLower k title_lower) then score + 20 else score
  let score := if ["safety", "preclinical", "nonclinical"].any
      (fun k => inLower k title_lower) then score + 15 else score
  let score := if ["hepatic", "liver"].any
      (fun k => inLower k title_lower) then score + 10 else score
  let score := if inLower "3d" title_lower then score + 10 else score
  min score 30

/-- `score_company_intent` of `src/lead_scoring.py`.  Python's
`if not funding_stage` is true for `None` and for the empty string. -/
def score_company_intent (funding_stage : Option String) : Int :=
  match funding_stage with
  | none => 0
  | some fs =>
    if fs = "" then 0
    else
      let stage := lowerStr fs
      if inLower "series b" stage || inLower "series c" stage then 20
      else if inLower "series a" stage then 15
      else if inLower "seed" stage then 8
      else if inLower "ipo" stage || inLower "public" stage then 12
      else if inLower "grant" stage then 10
      else 0

/-- `score_technographic` of `src/lead_scoring.py`. -/
def score_technographic (uses_similar_tech open_to_nams : Bool) : Int :=
  let score : Int := 0
  let score := if uses_similar_tech then score + 15 else score
  let score := if open_to_nams then score + 10 else score
  min score 25

/-- `score_location` of `src/lead_scoring.py`: the Python `for` loop
returning 10 on the first matching hub is the `any` over the hub
list. -/
def score_location (person_location company_hq : String) : Int :=
  let locs := lowerStr (person_location ++ " " ++ company_hq)
  if HUB_LOCATIONS.any (fun hub => containsSub (lowerStr hub) locs) then 10 else 0

/-- `score_scientific_intent` of `src/lead_scoring.py`. -/
def score_scientific_intent (publication_titles : List String) : Int :=
  let titles_text := lowerStr (String.intercalate " " publication_titles)
  let score : Int := 0
  let score := if DILI_KEYWORDS.any
      (fun k => wordBoundarySearch (lowerStr k) titles_text) then score + 30 else score
  let score := if 2 ≤ publication_titles.length then score + 10 else score
  min score 40

/-- `score_conference_signal` of `src/lead_scoring.py`. -/
def score_conference_signal (attendee speaker : Bool) : Int :=
  if speaker then 15
  else if attendee then 8
  else 0

/-- `compute_propensity_score` of `src/lead_scoring.py`. -/
def compute_propensity_score (lead : Lead) : Int :=
  let role := score_role_fit lead.title
  let company_int := score_company_intent lead.funding_stage
  let techno := score_technographic lead.uses_similar_tech lead.open_to_nams
  let loc := score_location lead.person_location lead.company_hq
  let sci := score_scientific_intent lead.recent_publications
  let conf := score_conference_signal lead.is_conference_attendee
    lead.is_conference_speaker_or_presenter
  let raw_score := role + company_int + techno + loc + sci + conf
  max 0 (min raw_score 100)

/-!
Embedding of the pipeline stages of `src/graph_app.py`.  The Python
`LeadState.leads` field holds untyped dicts: raw lead dicts (exactly the
fields of `Lead`, produced by `lead_to_dict`) before the Enrich stage and
scored dicts after it.  The two shapes are modelled with precise types:
`Lead` before enrichment and `EnrichedLead` after, and the stages become
functions between lists of those records.
-/

/-- The scored dict built by `enrich_leads` in `src/graph_app.py`:
all `Lead` fields, with `recent_publications` replaced by the
`"; "`-joined display string and `propensity_score` added. -/
structure EnrichedLead where
  name : String
  title : String
  company : String
  person_location : String
  company_hq : String
  email : Option String
  linkedin_url : Option String
  funding_stage : Option String
  uses_similar_tech : Bool
  open_to_nams : Bool
  recent_publications : String
  is_conference_attendee : Bool
  is_conference_speaker_or_presenter : Bool
  propensity_score : Int
deriving DecidableEq

/-- The per-record body of the `enrich_leads` loop: score the lead and
build the enriched dict `{**lead_dict, "recent_publications": pubs_str,
"propensity_score": score}`.  Python `"; ".join(pubs) if pubs else ""`
is `String.intercalate "; "`, which is also `""` on the empty list. -/
def enrichOne (l : Lead) : EnrichedLead :=
  { name := l.name
    title := l.title
    company := l.company
    person_location := l.person_location
    company_hq := l.company_hq
    email := l.email
    linkedin_url := l.linkedin_url
    funding_stage := l.funding_stage
    uses_similar_tech := l.uses_similar_tech
    open_to_nams := l.open_to_nams
    recent_publications := String.intercalate "; " l.recent_publications
    is_conference_attendee := l.is_conference_attendee
    is_conference_speaker_or_presenter := l.is_conference_speaker_or_presenter
    propensity_score := compute_propensity_score l }

/-- The `enrich_leads` loop of `src/graph_app.py` with the `seen_names`
set made explicit (a list of names, membership by string equality):
skip a record whose name was already seen, otherwise record the name
and emit the enriched record. -/
def enrichGo (seen : List String) : List Lead → List EnrichedLead
  | [] => []
  | l :: ls =>
    if l.name ∈ seen then enrichGo seen ls
    else enrichOne l :: enrichGo (l.name :: seen) ls

/-- Stage 2, `enrich_leads` of `src/graph_app.py`: dedupe by `name`
(first occurrence wins) and score the survivors. -/
def enrich_leads (leads : List Lead) : List EnrichedLead :=
  enrichGo [] leads

/-- The location predicate of the `filter_and_rank` comprehension in
`src/graph_app.py`: the lowered filter occurs in the lowered
`person_location` or in the lowered `company_hq`.  The fields are
always strings here, so Python's `or ""` guard is the identity. -/
def locMatches (lf : String) (l : EnrichedLead) : Bool :=
  containsSub (lowerStr lf) (lowerStr l.person_location)
  || containsSub (lowerStr lf) (lowerStr l.company_hq)

/-- The free-text query predicate of `filter_and_rank` in
`src/graph_app.py`: OR across title, company, joined publications
string and name. -/
def queryMatches (q : String) (l : EnrichedLead) : Bool :=
  containsSub (lowerStr q) (lowerStr l.title)
  || containsSub (lowerStr q) (lowerStr l.company)
  || containsSub (lowerStr q) (lowerStr l.recent_publications)
  || containsSub (lowerStr q) (lowerStr l.name)

/-- The `if state.location_filter:` guard and location comprehension of
`filter_and_rank`: an empty filter string is falsy in Python, so the
stage is skipped. -/
def locationFilterStep (lf : String) (ls : List EnrichedLead) : List EnrichedLead :=
  if lf = "" then ls else ls.filter (locMatches lf)

/-- The `if state.query:` guard and query comprehension of
`filter_and_rank`. -/
def queryFilterStep (q : String) (ls : List EnrichedLead) : List EnrichedLead :=
  if q = "" then ls else ls.filter (queryMatches q)

/-- One insertion step of the stable descending sort: walk past records
with a strictly larger score and insert before the first record whose
score is less than or equal, so that an earlier-listed record keeps its
place ahead of later records with equal scores. -/
def insertByScoreDesc (x : EnrichedLead) : List EnrichedLead → List EnrichedLead
  | [] => [x]
  | y :: ys =>
    if x.propensity_score < y.propensity_score then y :: insertByScoreDesc x ys
    else x :: y :: ys

/-- `filtered.sort(key=lambda x: x["propensity_score"], reverse=True)`
of `src/graph_app.py`.  Python's `list.sort` is a stable sort; with
`reverse=True` it compares in reverse (it does not reverse the list),
so the result is the unique list that is sorted by score descending
while records of equal score keep their original relative order.  This
insertion sort computes exactly that list (sortedness and stability are
proved below). -/
def sortByScoreDesc : List EnrichedLead → List EnrichedLead
  | [] => []
  | x :: xs => insertByScoreDesc x (sortByScoreDesc xs)

/-- Stage 3, `filter_and_rank` of `src/graph_app.py`: minimum-score
threshold, optional location filter, optional query filter, then the
stable descending sort.  The state fields it reads (`query`,
`location_filter`, `min_score`, `leads`) are passed explicitly. -/
def filter_and_rank (query location_filter : String) (min_score : Int)
    (leads : List EnrichedLead) : List EnrichedLead :=
  let filtered := leads.filter (fun l => min_score ≤ l.propensity_score)
  let filtered := locationFilterStep location_filter filtered
  let filtered := queryFilterStep query filtered
  sortByScoreDesc filtered

/-- Modelled from the spec (section 3, Invariants): "Deduplication key
is `name` (case-sensitive, exact match); first occurrence wins, later
duplicates are dropped entirely."  Keeps each record whose name did not
occur earlier in the input, in input order. -/
def dedupeByNameSpec : List Lead → List Lead
  | [] => []
  | l :: ls => l :: dedupeByNameSpec (ls.filter (fun x => decide (x.name ≠ l.name)))
termination_by l => l.length
decreasing_by
  simp only [List.length_cons]
  exact Nat.lt_succ_of_le (List.length_filter_le _ _)

/-- `needle` occurs case-insensitively as a substring of `hay`: some
index of the lower-cased haystack starts an occurrence of the
lower-cased needle. -/
def CIOccursIn (needle hay : String) : Prop :=
  ∃ i, ((lowerStr hay).drop i).take (lowerStr needle).length = lowerStr needle

/-- `kw` occurs in `text` as a whole word: at some index `i` an
occurrence of `kw` starts, the character before it (if any) is a
non-word character, and the character after it (if any) is a non-word
character. -/
def WordOccursIn (kw text : List Char) : Prop :=
  ∃ i, (text.drop i).take kw.length = kw
    ∧ (i = 0 ∨ isWordChar (text.getD (i - 1) ' ') = false)
    ∧ isWordChar (text.getD (i + kw.length) ' ') = false

/-- Descending rank order on scored records: `a` ranks at or above `b`. -/
def scoreGE (a b : EnrichedLead) : Prop :=
  b.propensity_score ≤ a.propensity_score

/-- A scored record with the given name and propensity score and
otherwise empty fields, for concrete test inputs. -/
def plainEnriched (nm : String) (s : Int) : EnrichedLead :=
  { name := nm
    title := ""
    company := ""
    person_location := ""
    company_hq := ""
    email := none
    linkedin_url := none
    funding_stage := none
    uses_similar_tech := false
    open_to_nams := false
    recent_publications := ""
    is_conference_attendee := false
    is_conference_speaker_or_presenter := false
    propensity_score := s }

/-- The "Ivan Petrov" record of `demo_leads` in `src/lead_scoring.py`
after enrichment: located in "Remote - Colorado" with company HQ
"Boston, MA". -/
def bostonLead : EnrichedLead :=
  { name := "Ivan Petrov"
    title := "Principal Scientist, Liver Models"
    company := "OrganChip Labs"
    person_location := "Remote - Colorado"
    company_hq := "Boston, MA"
    email := some "ivan.petrov@organchip.com"
    linkedin_url := some "https://www.linkedin.com/in/ivanpetrov"
    funding_stage := some "Series A"
    uses_similar_tech := true
    open_to_nams := true
    recent_publications := "Hepatocyte spheroids in NAM workflows"
    is_conference_attendee := true
    is_conference_speaker_or_presenter := false
    propensity_score := 93 }

/-- The "Bob Johnson" record of `demo_leads` in `src/lead_scoring.py`:
the spec's "Junior Scientist, Cell Biology / Pre-seed / all signals
off" end-to-end scenario. -/
def bobLead : Lead :=
  { name := "Bob Johnson"
    title := "Junior Scientist, Cell Biology"
    company := "NanoLiver Startups"
    person_location := "Austin, TX"
    company_hq := "Austin, TX"
    email := some "bob.johnson@nanoliver.io"
    linkedin_url := some "https://www.linkedin.com/in/bobjohnson"
    funding_stage := some "Pre-seed"
    uses_similar_tech := false
    open_to_nams := false
    recent_publications := []
    is_conference_attendee := false
    is_conference_speaker_or_presenter := false }

/-!  Helper lemmas. -/

/-- The bounded search of `containsSub` finds an occurrence iff one
exists at any index. -/
theorem containsSub_iff (kw text : List Char) :
    containsSub kw text = true ↔ ∃ i, (text.drop i).take kw.length = kw := by
  simp only [containsSub, List.any_eq_true, List.mem_range, beq_iff_eq]
  constructor
  · rintro ⟨i, _, h⟩
    exact ⟨i, h⟩
  · rintro ⟨i, h⟩
    by_cases hi : i ≤ text.length
    · exact ⟨i, by omega, h⟩
    · have hkw : kw = [] := by
        rw [List.drop_eq_nil_of_le (by omega), List.take_nil] at h
        exact h.symm
      subst hkw
      exact ⟨0, by omega, by simp⟩

/-- The bounded search of `wordBoundarySearch` finds a whole-word
occurrence iff one exists, for a non-empty keyword. -/
theorem wordBoundarySearch_iff (kw text : List Char) (hk : kw ≠ []) :
    wordBoundarySearch kw text = true ↔ WordOccursIn kw text := by
  simp only [wordBoundarySearch, WordOccursIn, List.any_eq_true, List.mem_range,
    Bool.and_eq_true, Bool.or_eq_true, beq_iff_eq, Bool.not_eq_true']
  constructor
  · rintro ⟨i, _, ⟨h1, h2⟩, h3⟩
    exact ⟨i, h1, h2, h3⟩
  · rintro ⟨i, h1, h2, h3⟩
    have hi : i ≤ text.length := by
      by_contra hgt
      rw [List.drop_eq_nil_of_le (by omega), List.take_nil] at h1
      exact hk h1.symm
    exact ⟨i, by omega, ⟨h1, h2⟩, h3⟩

/-- The `enrich_leads` loop with explicit `seen` list equals
spec-style deduplication of the not-yet-seen records followed by
per-record enrichment. -/
theorem enrichGo_eq (ls : List Lead) : ∀ seen : List String,
    enrichGo seen ls
      = (dedupeByNameSpec (ls.filter (fun x => decide (x.name ∉ seen)))).map enrichOne := by
  induction ls with
  | nil => intro seen; simp [enrichGo, dedupeByNameSpec]
  | cons l ls ih =>
    intro seen
    by_cases h : l.name ∈ seen
    · rw [enrichGo, if_pos h, List.filter_cons_of_neg (by simp [h]), ih]
    · rw [enrichGo, if_neg h, List.filter_cons_of_pos (by simp [h])]
      simp only [dedupeByNameSpec, List.filter_filter, List.map_cons]
      rw [ih (l.name :: seen)]
      have hpred : (fun x : Lead => decide (x.name ≠ l.name) && decide (x.name ∉ seen))
          = fun x : Lead => decide (x.name ∉ l.name :: seen) := by
        funext x
        by_cases h1 : x.name = l.name <;> by_cases h2 : x.name ∈ seen <;>
          simp [h1, h2]
      rw [hpred]

/-- Membership in an insertion step. -/
theorem mem_insertByScoreDesc (x z : EnrichedLead) (l : List EnrichedLead) :
    z ∈ insertByScoreDesc x l ↔ z = x ∨ z ∈ l := by
  induction l with
  | nil => simp [insertByScoreDesc]
  | cons y ys ih =>
    rw [insertByScoreDesc]
    split
    · simp only [List.mem_cons, ih]
      tauto
    · simp only [List.mem_cons]

/-- Inserting into a descending-sorted list keeps it descending. -/
theorem sorted_insertByScoreDesc (x : EnrichedLead) (l : List EnrichedLead)
    (h : l.Pairwise scoreGE) : (insertByScoreDesc x l).Pairwise scoreGE := by
  induction l with
  | nil => simp [insertByScoreDesc]
  | cons y ys ih =>
    rw [List.pairwise_cons] at h
    obtain ⟨hy, hys⟩ := h
    rw [insertByScoreDesc]
    split
    · rename_i hlt
      rw [List.pairwise_cons]
      refine ⟨?_, ih hys⟩
      intro z hz
      rcases (mem_insertByScoreDesc x z ys).mp hz with rfl | hz
      · exact le_of_lt hlt
      · exact hy z hz
    · rename_i hge
      rw [not_lt] at hge
      rw [List.pairwise_cons]
      refine ⟨?_, List.pairwise_cons.mpr ⟨hy, hys⟩⟩
      intro z hz
      rcases List.mem_cons.mp hz with rfl | hz
      · exact hge
      · exact le_trans (hy z hz) hge

/-- The stable sort's output is sorted by score descending. -/
theorem sorted_sortByScoreDesc (l : List EnrichedLead) :
    (sortByScoreDesc l).Pairwise scoreGE := by
  induction l with
  | nil => simp [sortByScoreDesc]
  | cons x xs ih =>
    rw [sortByScoreDesc]
    exact sorted_insertByScoreDesc x _ ih

/-- Insertion does not change the subsequence of records of any fixed
score: the inserted record passes only over strictly larger scores. -/
theorem filter_insertByScoreDesc (x : EnrichedLead) (l : List EnrichedLead) (s : Int) :
    (insertByScoreDesc x l).filter (fun y => decide (y.propensity_score = s))
      = (x :: l).filter (fun y => decide (y.propensity_score = s)) := by
  induction l with
  | nil => rfl
  | cons y ys ih =>
    rw [insertByScoreDesc]
    split
    · rename_i hlt
      by_cases hx : x.propensity_score = s <;> by_cases hy : y.propensity_score = s
      · exact absurd (hx.trans hy.symm) (by omega)
      · simp [List.filter_cons, hx, hy, ih]
      · simp [List.filter_cons, hx, hy, ih]
      · simp [List.filter_cons, hx, hy, ih]
    · rfl

/-- Stability of the sort, as preserved per-score subsequences: for
every score `s`, the records of score `s` appear in the output in
exactly their input order. -/
theorem filter_sortByScoreDesc (l : List EnrichedLead) (s : Int) :
    (sortByScoreDesc l).filter (fun y => decide (y.propensity_score = s))
      = l.filter (fun y => decide (y.propensity_score = s)) := by
  induction l with
  | nil => rfl
  | cons x xs ih =>
    rw [sortByScoreDesc, filter_insertByScoreDesc]
    simp only [List.filter_cons, ih]

/-!  Claim theorems. -/

/-- Claim C1: for every `Lead`, `compute_propensity_score lead` lies in
the closed interval `[0, 100]`, and it is exactly the sum of the six
sub-scores clamped to `[0, 100]`. -/
theorem propensity_score_in_bounds (lead : Lead) :
    0 ≤ compute_propensity_score lead ∧ compute_propensity_score lead ≤ 100 ∧
    compute_propensity_score lead =
      max 0 (min (score_role_fit lead.title
        + score_company_intent lead.funding_stage
        + score_technographic lead.uses_similar_tech lead.open_to_nams
        + score_location lead.person_location lead.company_hq
        + score_scientific_intent lead.recent_publications
        + score_conference_signal lead.is_conference_attendee
            lead.is_conference_speaker_or_presenter) 100) :=
  ⟨le_max_left 0 _, max_le (by norm_num) (min_le_right _ 100), rfl⟩

/-- Claim C2, counterexample: the Bob Johnson lead satisfies the
claim's hypotheses (title "Junior Scientist, Cell Biology", funding
stage "Pre-seed", all boolean signals false, no publications, no hub
match in its locations), yet its company-intent sub-score and total
propensity score are not 0: `"seed"` is a case-insensitive substring of
`"pre-seed"`, so `score_company_intent` returns 8. -/
theorem preseed_scores_zero_counterexample :
    score_location bobLead.person_location bobLead.company_hq = 0
    ∧ ¬ (score_company_intent bobLead.funding_stage = 0
          ∧ compute_propensity_score bobLead = 0) := by
  decide

/-- Claim C2 as amended: a Lead with title "Junior Scientist, Cell
Biology", funding_stage "Pre-seed", all boolean signals false, empty
publications and no hub match in its locations has company-intent
sub-score 8 (substring matching finds "seed" inside "pre-seed") and
total propensity score 8. -/
theorem preseed_lead_scores_eight (name company : String)
    (email lu : Option String) (pl hq : String)
    (hloc : score_location pl hq = 0) :
    score_company_intent (some "Pre-seed") = 8 ∧
    compute_propensity_score
      { name := name
        title := "Junior Scientist, Cell Biology"
        company := company
        person_location := pl
        company_hq := hq
        email := email
        linkedin_url := lu
        funding_stage := some "Pre-seed"
        uses_similar_tech := false
        open_to_nams := false
        recent_publications := []
        is_conference_attendee := false
        is_conference_speaker_or_presenter := false } = 8 := by
  refine ⟨by decide, ?_⟩
  have h1 : score_role_fit "Junior Scientist, Cell Biology" = 0 := by decide
  have h2 : score_company_intent (some "Pre-seed") = 8 := by decide
  have h3 : score_technographic false false = 0 := by decide
  have h4 : score_scientific_intent [] = 0 := by decide
  have h5 : score_conference_signal false false = 0 := by decide
  simp only [compute_propensity_score, h1, h2, h3, h4, h5, hloc]
  norm_num

/-- Witness for the amended claim C2, at the Bob Johnson demo lead. -/
theorem preseed_lead_scores_eight_witness :
    score_company_intent (some "Pre-seed") = 8 ∧
    compute_propensity_score bobLead = 8 :=
  preseed_lead_scores_eight "Bob Johnson" "NanoLiver Startups"
    (some "bob.johnson@nanoliver.io") (some "https://www.linkedin.com/in/bobjohnson")
    "Austin, TX" "Austin, TX" (by decide)

/-- Claim C3: the Enrich stage deduplicates by exact case-sensitive
equality on `name`.  For any input sequence, `enrich_leads` produces
exactly the spec-style first-occurrence-wins deduplication of the
input, each surviving record enriched, in input order. -/
theorem enrich_dedupes_first_occurrence (leads : List Lead) :
    enrich_leads leads = (dedupeByNameSpec leads).map enrichOne := by
  have h0 : leads.filter (fun x => decide (x.name ∉ ([] : List String))) = leads := by
    simp
  rw [enrich_leads, enrichGo_eq, h0]

/-- Claim C4: `filter_and_rank` sorts surviving records by
`propensity_score` descending, and the sort is stable: for every score
`s`, the records of score `s` appear in the output in their pre-sort
relative order; in particular for post-dedupe input A(50), B(70), C(50)
the output order is [B, A, C]. -/
theorem filter_rank_sorted_and_stable :
    (∀ (q lf : String) (ms : Int) (leads : List EnrichedLead),
      (filter_and_rank q lf ms leads).Pairwise scoreGE)
    ∧ (∀ (ls : List EnrichedLead) (s : Int),
      (sortByScoreDesc ls).filter (fun y => decide (y.propensity_score = s))
        = ls.filter (fun y => decide (y.propensity_score = s)))
    ∧ filter_and_rank "" "" 0
        [plainEnriched "A" 50, plainEnriched "B" 70, plainEnriched "C" 50]
      = [plainEnriched "B" 70, plainEnriched "A" 50, plainEnriched "C" 50] := by
  refine ⟨?_, filter_sortByScoreDesc, by decide⟩
  intro q lf ms leads
  exact sorted_sortByScoreDesc _

/-- Claim C5: the role-fit sub-score never exceeds 30, the
technographic sub-score never exceeds 25, and the scientific-intent
sub-score never exceeds 40, for all inputs. -/
theorem subscore_caps :
    (∀ title : String, score_role_fit title ≤ 30)
    ∧ (∀ u o : Bool, score_technographic u o ≤ 25)
    ∧ (∀ pubs : List String, score_scientific_intent pubs ≤ 40) :=
  ⟨fun _ => min_le_right _ 30, fun _ _ => min_le_right _ 25, fun _ => min_le_right _ 40⟩

/-- Claim C6: the conference sub-score is 15 whenever the speaker flag
is set, independently of the attendee flag (never summed); otherwise it
is 8 for an attendee and 0 for neither.  In particular
`score_conference_signal false true = score_conference_signal true true
= 15`. -/
theorem conference_signal_speaker_priority :
    (∀ a : Bool, score_conference_signal a true = 15)
    ∧ (∀ a : Bool, score_conference_signal a false = if a then 8 else 0)
    ∧ score_conference_signal false true = 15
    ∧ score_conference_signal true true = 15 := by
  decide

/-- Claim C7: with `min_score = 100`, `filter_and_rank` on any pool
whose scores are all strictly below 100 returns the empty list (a
normal empty result, not an error). -/
theorem min_score_100_yields_empty (q lf : String) (ms : Int)
    (leads : List EnrichedLead) (hms : ms = 100)
    (hlt : ∀ l ∈ leads, l.propensity_score < 100) :
    filter_and_rank q lf ms leads = [] := by
  subst hms
  have h0 : leads.filter (fun l => decide ((100 : Int) ≤ l.propensity_score)) = [] := by
    rw [List.filter_eq_nil_iff]
    intro a ha
    have := hlt a ha
    simp only [decide_eq_true_eq]
    omega
  simp [filter_and_rank, h0, locationFilterStep, queryFilterStep, sortByScoreDesc]

/-- Witness for claim C7: a one-record pool of score 99 filtered at
minimum score 100 comes out empty. -/
theorem min_score_100_yields_empty_witness :
    filter_and_rank "liver" "Boston" 100 [plainEnriched "X" 99] = [] :=
  min_score_100_yields_empty "liver" "Boston" 100 [plainEnriched "X" 99] rfl
    (by decide)

/-- Claim C8: for a non-empty location filter, the location stage of
`filter_and_rank` keeps a record iff the filter occurs
case-insensitively as a substring of `person_location` or of
`company_hq`; in particular the record with `person_location`
"Remote - Colorado" and `company_hq` "Boston, MA" is kept by the
filter "boston". -/
theorem location_filter_or_semantics :
    (∀ (lf : String) (ls : List EnrichedLead) (l : EnrichedLead), lf ≠ "" →
      (l ∈ locationFilterStep lf ls ↔
        l ∈ ls ∧ (CIOccursIn lf l.person_location ∨ CIOccursIn lf l.company_hq)))
    ∧ locationFilterStep "boston" [bostonLead] = [bostonLead] := by
  refine ⟨?_, by decide⟩
  intro lf ls l hlf
  rw [locationFilterStep, if_neg hlf, List.mem_filter, locMatches, Bool.or_eq_true,
    containsSub_iff, containsSub_iff]
  exact Iff.rfl

/-- Witness for claim C8, at the Boston-HQ record and filter
"boston". -/
theorem location_filter_or_semantics_witness :
    bostonLead ∈ [bostonLead]
    ∧ (CIOccursIn "boston" bostonLead.person_location
        ∨ CIOccursIn "boston" bostonLead.company_hq) :=
  (location_filter_or_semantics.1 "boston" [bostonLead] bostonLead (by decide)).mp
    (by decide)

/-- Claim C9: the scientific-intent sub-score awards +30 iff some DILI
keyword occurs as a whole word (word-boundary match) in the lower-cased
space-joined publication text, awards +10 iff there are at least two
titles, and clamps the sum at 40; the match is not a pure substring
test: "dili" occurring inside the longer word "dilithium" is a
substring but not a whole-word match, and scores 0. -/
theorem scientific_intent_word_boundary :
    (∀ titles : List String,
      ((∃ k ∈ DILI_KEYWORDS,
          WordOccursIn (lowerStr k) (lowerStr (String.intercalate " " titles))) →
        score_scientific_intent titles
          = min (30 + if 2 ≤ titles.length then 10 else 0) 40)
      ∧ ((¬ ∃ k ∈ DILI_KEYWORDS,
          WordOccursIn (lowerStr k) (lowerStr (String.intercalate " " titles))) →
        score_scientific_intent titles
          = min (0 + if 2 ≤ titles.length then 10 else 0) 40))
    ∧ containsSub (lowerStr "DILI") (lowerStr "a study of dilithium") = true
    ∧ wordBoundarySearch (lowerStr "DILI") (lowerStr "a study of dilithium") = false
    ∧ score_scientific_intent ["a study of dilithium"] = 0 := by
  have hkne : ∀ k ∈ DILI_KEYWORDS, lowerStr k ≠ [] := by decide
  have hbridge : ∀ T : List Char,
      DILI_KEYWORDS.any (fun k => wordBoundarySearch (lowerStr k) T) = true
        ↔ ∃ k ∈ DILI_KEYWORDS, WordOccursIn (lowerStr k) T := by
    intro T
    rw [List.any_eq_true]
    constructor
    · rintro ⟨k, hk, hw⟩
      exact ⟨k, hk, (wordBoundarySearch_iff _ _ (hkne k hk)).mp hw⟩
    · rintro ⟨k, hk, hw⟩
      exact ⟨k, hk, (wordBoundarySearch_iff _ _ (hkne k hk)).mpr hw⟩
  refine ⟨?_, by decide, by decide, by decide⟩
  intro titles
  constructor
  · intro hex
    have hany := (hbridge (lowerStr (String.intercalate " " titles))).mpr hex
    simp only [score_scientific_intent, hany, if_true]
    by_cases hlen : 2 ≤ titles.length <;> simp [hlen]
  · intro hnex
    have hany : DILI_KEYWORDS.any
        (fun k => wordBoundarySearch (lowerStr k) (lowerStr (String.intercalate " " titles)))
        = false := by
      rw [← Bool.not_eq_true, hbridge]
      exact hnex
    simp only [score_scientific_intent, hany, Bool.false_eq_true, if_false]
    by_cases hlen : 2 ≤ titles.length <;> simp [hlen]

/-- Witness for claim C9: a two-title list containing the keyword
"DILI" as a whole word gets the keyword bonus and the two-publication
bonus. -/
theorem scientific_intent_word_boundary_witness :
    score_scientific_intent ["dili studies", "more dili work"] = 40 := by
  have h := (scientific_intent_word_boundary.1 ["dili studies", "more dili work"]).1
    ⟨"DILI", by decide, ⟨0, by decide⟩⟩
  simpa using h

/-- Claim C10: because `score_scientific_intent` joins titles with a
single space, a multi-word DILI keyword can match across the boundary
of two adjacent titles: no DILI keyword is even a substring of
"assays for hepatic" or of "toxicity in vitro" alone (each scores 0),
yet the joined text matches "hepatic toxicity" as a whole word and the
pair receives the +30 keyword bonus (total 40 with the two-publication
bonus). -/
theorem keyword_match_across_title_boundary :
    DILI_KEYWORDS.all (fun k =>
        !containsSub (lowerStr k) (lowerStr "assays for hepatic")
        && !containsSub (lowerStr k) (lowerStr "toxicity in vitro")) = true
    ∧ score_scientific_intent ["assays for hepatic"] = 0
    ∧ score_scientific_intent ["toxicity in vitro"] = 0
    ∧ "hepatic toxicity" ∈ DILI_KEYWORDS
    ∧ wordBoundarySearch (lowerStr "hepatic toxicity")
        (lowerStr (String.intercalate " " ["assays for hepatic", "toxicity in vitro"])) = true
    ∧ score_scientific_intent ["assays for hepatic", "toxicity in vitro"] = 40 := by
  decide

end Euprime
